import Mathlib

/-!
Verification of the UART frame decoder in `src/esphome/uplift_uart.h`
(class `UartUpliftSensor`).

The C++ code keeps its state in static locals: `lastch` (inside
`startcode`), and `mode`, `first_byte`, `raw_data`, `previous_raw_data`
(inside `loop`).  `loop()` drains available bytes: while `mode == false`
it feeds each byte to `startcode` (two consecutive bytes of value 1 flip
`mode` to true); while `mode == true` it assembles a 16-bit value from a
high byte (rejected back to seeking when `raw_data > 256`) and a low
byte, publishing `raw_data / 10.0` when the value changed.

We embed this as a per-byte step function `loopStep` over an explicit
`DecoderState`; `loopRun` folds it over a byte list, collecting the
published values (modelled exactly as rationals `raw / 10`).  Processing
is per byte and depends only on the persistent state, so folding
`loopStep` over the arriving bytes is the behaviour of repeated `loop()`
invocations regardless of how the bytes are split across invocations.
`raw_data` and `previous_raw_data` are C++ `unsigned short`s, so
assignments are taken modulo 65536.  The unused static `buffer` of
`loop()` is not modelled.
-/

namespace UartUplift

/-- Modulus of the C++ `unsigned short` type of `raw_data` and
`previous_raw_data`. -/
def ushortMod : Nat := 65536

/-- The persistent decoder state: the static locals of `startcode` and
`loop` in `uplift_uart.h`. -/
structure DecoderState where
  lastch : Nat
  mode : Bool
  first_byte : Bool
  raw_data : Nat
  previous_raw_data : Nat
deriving DecidableEq

/-- Initial values of the static locals: `lastch = 0`, `mode = false`,
`first_byte = true`, `raw_data = 0`, `previous_raw_data = 0`. -/
def initState : DecoderState :=
  { lastch := 0
    mode := false
    first_byte := true
    raw_data := 0
    previous_raw_data := 0 }

/-- `startcode` from `uplift_uart.h`, with the static `lastch` made
explicit: returns the new `lastch` together with the boolean result. -/
def startcode (readch lastch : Nat) : Bool × Nat :=
  if readch = 1 ∧ lastch = 1 then (true, 0) else (false, readch)

/-- One byte of processing by `loop()` in `uplift_uart.h`: the body of
the seeking `while` when `mode == false` (which also re-arms
`first_byte`), otherwise the body of the data `while`.  The second
component is the argument of the `publish_state` call, when one is
made. -/
def loopStep (s : DecoderState) (b : Nat) : DecoderState × Option ℚ :=
  if s.mode = false then
    let r := startcode b s.lastch
    ({ s with lastch := r.2, mode := r.1, first_byte := true }, none)
  else if s.first_byte = true then
    let raw := (256 * b) % ushortMod
    ({ s with
        raw_data := raw
        first_byte := false
        mode := if raw > 256 then false else s.mode }, none)
  else
    let raw := (s.raw_data + b) % ushortMod
    if s.previous_raw_data ≠ raw then
      ({ s with
          raw_data := raw
          mode := false
          previous_raw_data := raw }, some ((raw : ℚ) / 10))
    else
      ({ s with raw_data := raw, mode := false }, none)

/-- Process a list of available bytes in order, collecting the published
values. -/
def loopRun (s : DecoderState) : List Nat → DecoderState × List ℚ
  | [] => (s, [])
  | b :: bs =>
    let p := loopStep s b
    let q := loopRun p.1 bs
    (q.1, p.2.toList ++ q.2)

/-- The wire bytes of a well-formed frame with payload `(high, low)`:
two marker bytes of value 1, then the payload. -/
def frameBytes (f : Nat × Nat) : List Nat := [1, 1, f.1, f.2]

/-- The 16-bit value a frame with payload `(high, low)` assembles. -/
def frameVal (f : Nat × Nat) : Nat := 256 * f.1 + f.2

/-- Concatenated wire bytes of a list of frames. -/
def encodeFrames : List (Nat × Nat) → List Nat
  | [] => []
  | f :: fs => frameBytes f ++ encodeFrames fs

/-- The emission sequence the spec describes: given the previously
emitted value, each frame value is published (as `value / 10`) exactly
when it differs from the previously emitted one. -/
def specEmits : Nat → List Nat → List ℚ
  | _, [] => []
  | prev, v :: vs => (if v = prev then [] else [(v : ℚ) / 10]) ++ specEmits v vs

/-- Bound on `raw_data` in the states reachable while a low byte is
awaited: the high-byte validity check has already passed. -/
def RawInv (s : DecoderState) : Prop :=
  s.mode = true → s.first_byte = false → s.raw_data ≤ 256

lemma loopRun_cons (s : DecoderState) (b : Nat) (bs : List Nat) :
    loopRun s (b :: bs) =
      ((loopRun (loopStep s b).1 bs).1,
       (loopStep s b).2.toList ++ (loopRun (loopStep s b).1 bs).2) := rfl

lemma loopStep_seek_miss (s : DecoderState) (b : Nat) (hm : s.mode = false)
    (hne : ¬(b = 1 ∧ s.lastch = 1)) :
    loopStep s b =
      ({ s with lastch := b, mode := false, first_byte := true }, none) := by
  simp [loopStep, startcode, hm, hne]

lemma loopStep_seek_hit (s : DecoderState) (hm : s.mode = false)
    (hc : s.lastch = 1) :
    loopStep s 1 =
      ({ s with lastch := 0, mode := true, first_byte := true }, none) := by
  simp [loopStep, startcode, hm, hc]

lemma loopStep_high (s : DecoderState) (b : Nat) (hm : s.mode = true)
    (hf : s.first_byte = true) (hb : b ≤ 255) :
    loopStep s b =
      ({ s with
          raw_data := 256 * b
          first_byte := false
          mode := if 256 * b > 256 then false else true }, none) := by
  have hmod : (256 * b) % ushortMod = 256 * b := by
    apply Nat.mod_eq_of_lt; unfold ushortMod; omega
  simp [loopStep, hm, hf, hmod]

lemma loopStep_low (s : DecoderState) (b : Nat) (hm : s.mode = true)
    (hf : s.first_byte = false) (hraw : s.raw_data + b < ushortMod) :
    loopStep s b =
      if s.previous_raw_data = s.raw_data + b then
        ({ s with raw_data := s.raw_data + b, mode := false }, none)
      else
        ({ s with
            raw_data := s.raw_data + b
            mode := false
            previous_raw_data := s.raw_data + b },
         some (((s.raw_data + b : Nat) : ℚ) / 10)) := by
  have hmod : (s.raw_data + b) % ushortMod = s.raw_data + b :=
    Nat.mod_eq_of_lt hraw
  by_cases hpv : s.previous_raw_data = s.raw_data + b
  · simp [loopStep, hm, hf, hmod, hpv]
  · simp [loopStep, hm, hf, hmod, hpv]

lemma loopRun_frame (s : DecoderState) (h l : Nat) (rest : List Nat)
    (hm : s.mode = false) (hc : s.lastch ≠ 1) (hh : h ≤ 1) (hl : l ≤ 255) :
    loopRun s (1 :: 1 :: h :: l :: rest) =
      ((loopRun ⟨0, false, false, 256 * h + l, 256 * h + l⟩ rest).1,
       (if 256 * h + l = s.previous_raw_data then []
        else [((256 * h + l : Nat) : ℚ) / 10]) ++
         (loopRun ⟨0, false, false, 256 * h + l, 256 * h + l⟩ rest).2) := by
  obtain ⟨c, m, fb, rd, pv⟩ := s
  simp only at hm hc
  subst hm
  rw [loopRun_cons, loopStep_seek_miss _ _ rfl (by simp [hc])]
  rw [loopRun_cons, loopStep_seek_hit _ rfl rfl]
  rw [loopRun_cons, loopStep_high _ _ rfl rfl (by omega)]
  have hng : ¬(256 * h > 256) := by omega
  simp only [hng, if_false]
  rw [loopRun_cons, loopStep_low _ _ rfl rfl
    (by show 256 * h + l < ushortMod; unfold ushortMod; omega)]
  by_cases hpv : pv = 256 * h + l
  · simp [hpv]
  · have hpv2 : ¬(256 * h + l = pv) := fun he => hpv he.symm
    simp [hpv, hpv2]

lemma loopRun_encodeFrames (fs : List (Nat × Nat)) (c rd pv : Nat) (fb : Bool)
    (hc : c ≠ 1) (hwf : ∀ f ∈ fs, f.1 ≤ 1 ∧ f.2 ≤ 255) :
    (loopRun ⟨c, false, fb, rd, pv⟩ (encodeFrames fs)).2 =
      specEmits pv (fs.map frameVal) := by
  induction fs generalizing c rd pv fb with
  | nil => simp [encodeFrames, loopRun, specEmits]
  | cons f fs ih =>
    obtain ⟨hf1, hf2⟩ := hwf f (by simp)
    have hrest : ∀ g ∈ fs, g.1 ≤ 1 ∧ g.2 ≤ 255 := fun g hg => hwf g (by simp [hg])
    have hfr := loopRun_frame ⟨c, false, fb, rd, pv⟩ f.1 f.2 (encodeFrames fs)
      rfl hc hf1 hf2
    show (loopRun ⟨c, false, fb, rd, pv⟩
        (1 :: 1 :: f.1 :: f.2 :: encodeFrames fs)).2 = _
    rw [hfr]
    simp only [List.map_cons, specEmits, frameVal]
    rw [ih 0 (256 * f.1 + f.2) (256 * f.1 + f.2) false (by omega) hrest]

lemma loopStep_rawInv (s : DecoderState) (b : Nat) (hs : RawInv s) :
    RawInv (loopStep s b).1 := by
  obtain ⟨c, m, fb, rd, pv⟩ := s
  cases m with
  | false =>
    intro hm hf
    simp [loopStep] at hf
  | true =>
    cases fb with
    | true =>
      intro hm hf
      by_cases hg : (256 * b) % ushortMod > 256
      · simp [loopStep, hg] at hm
      · simp [loopStep, hg]
        omega
    | false =>
      intro hm hf
      by_cases hpv : pv ≠ (rd + b) % ushortMod
      · simp [loopStep, hpv] at hm
      · simp [loopStep, hpv] at hm

lemma loopStep_publish_bound (s : DecoderState) (b : Nat) (q : ℚ)
    (hs : RawInv s) (hb : b ≤ 255) (hq : (loopStep s b).2 = some q) :
    ∃ r : Nat, r ≤ 511 ∧ q = (r : ℚ) / 10 := by
  obtain ⟨c, m, fb, rd, pv⟩ := s
  cases m with
  | false => simp [loopStep, startcode] at hq
  | true =>
    cases fb with
    | true =>
      simp [loopStep] at hq
    | false =>
      have hrd : rd ≤ 256 := hs rfl rfl
      have hmod : (rd + b) % ushortMod = rd + b := by
        apply Nat.mod_eq_of_lt; unfold ushortMod; omega
      by_cases hpv : pv ≠ (rd + b) % ushortMod
      · simp [loopStep, hpv] at hq
        exact ⟨rd + b, by omega, by rw [← hq, hmod]⟩
      · simp [loopStep, hpv] at hq

lemma loopRun_publish_bound (bs : List Nat) (s : DecoderState)
    (hs : RawInv s) (hbs : ∀ b ∈ bs, b ≤ 255) :
    ∀ q ∈ (loopRun s bs).2, ∃ r : Nat, r ≤ 511 ∧ q = (r : ℚ) / 10 := by
  induction bs generalizing s with
  | nil =>
    intro q hq
    simp [loopRun] at hq
  | cons b bs ih =>
    intro q hq
    rw [loopRun_cons] at hq
    simp only [List.mem_append] at hq
    rcases hq with hq | hq
    · cases ho : (loopStep s b).2 with
      | none => rw [ho] at hq; simp at hq
      | some q' =>
        rw [ho] at hq
        simp at hq
        subst hq
        exact loopStep_publish_bound s b _ hs (hbs b (by simp)) ho
    · exact ih (loopStep s b).1 (loopStep_rawInv s b hs)
        (fun x hx => hbs x (by simp [hx])) q hq

/-- C1: for every sequence of well-formed frames (two marker bytes of
value 1, then a high byte ≤ 1, then a low byte) fed to the decoder from
its initial state, exactly one publish occurs per frame whose assembled
16-bit value differs from the previously emitted value, and consecutive
identical values after the first produce no publish — i.e. the output is
exactly the deduplicated emission sequence `specEmits`. -/
theorem c1_wellformed_frames_dedup (fs : List (Nat × Nat))
    (hwf : ∀ f ∈ fs, f.1 ≤ 1 ∧ f.2 ≤ 255) :
    (loopRun initState (encodeFrames fs)).2 = specEmits 0 (fs.map frameVal) :=
  loopRun_encodeFrames fs 0 0 0 true (by omega) hwf

/-- Witness for C1 at the frame list [(0,200), (0,200), (0,210)]. -/
theorem c1_wellformed_frames_dedup_witness :
    (∀ f ∈ [((0 : Nat), (200 : Nat)), (0, 200), (0, 210)],
      f.1 ≤ 1 ∧ f.2 ≤ 255) ∧
    (loopRun initState (encodeFrames [(0, 200), (0, 200), (0, 210)])).2 =
      specEmits 0 ([((0 : Nat), (200 : Nat)), (0, 200), (0, 210)].map frameVal) :=
  ⟨by decide, c1_wellformed_frames_dedup _ (by decide)⟩

/-- C2: an accepted frame with high byte `h` and low byte `l` assembles
`raw_data = 256 * h + l`, and publishes exactly `(256 * h + l) / 10`
when that value differs from the last emitted value (nothing
otherwise). -/
theorem c2_assembly_and_publish (s : DecoderState) (h l : Nat)
    (hm : s.mode = true) (hf : s.first_byte = true) (hh : h ≤ 1)
    (hl : l ≤ 255) :
    (loopRun s [h, l]).1.raw_data = 256 * h + l ∧
    (loopRun s [h, l]).2 =
      if s.previous_raw_data = 256 * h + l then []
      else [((256 * h + l : Nat) : ℚ) / 10] := by
  obtain ⟨c, m, fb, rd, pv⟩ := s
  simp only at hm hf
  subst hm
  subst hf
  rw [loopRun_cons, loopStep_high _ _ rfl rfl (by omega)]
  have hng : ¬(256 * h > 256) := by omega
  simp only [hng, if_false]
  rw [loopRun_cons, loopStep_low _ _ rfl rfl
    (by show 256 * h + l < ushortMod; unfold ushortMod; omega)]
  by_cases hpv : pv = 256 * h + l
  · simp [hpv, loopRun]
  · simp [hpv, loopRun]

/-- Witness for C2: after marker recognition (state
⟨0, true, true, 0, 0⟩), the payload bytes [0, 200] assemble
`raw_data = 200` and publish 200 / 10 = 20. -/
theorem c2_assembly_and_publish_witness :
    ((⟨0, true, true, 0, 0⟩ : DecoderState).mode = true ∧
     (⟨0, true, true, 0, 0⟩ : DecoderState).first_byte = true ∧
     (0 : Nat) ≤ 1 ∧ (200 : Nat) ≤ 255) ∧
    ((loopRun ⟨0, true, true, 0, 0⟩ [0, 200]).1.raw_data = 256 * 0 + 200 ∧
     (loopRun ⟨0, true, true, 0, 0⟩ [0, 200]).2 =
       if (⟨0, true, true, 0, 0⟩ : DecoderState).previous_raw_data =
           256 * 0 + 200 then []
       else [((256 * 0 + 200 : Nat) : ℚ) / 10]) :=
  ⟨⟨rfl, rfl, by omega, by omega⟩,
   c2_assembly_and_publish ⟨0, true, true, 0, 0⟩ 0 200 rfl rfl (by omega)
     (by omega)⟩

/-- C3: a high byte ≥ 2 read while awaiting the high byte makes
`raw_data > 256`; the decoder abandons the frame and returns to seeking
without publishing, and it resynchronizes on the next genuine [1, 1]
marker: the whole stream [h, 1, 1, h2, l2] publishes exactly the frame
(h2, l2), deduplicated against the last emitted value. -/
theorem c3_invalid_high_byte_resync (s : DecoderState) (h h2 l2 : Nat)
    (hm : s.mode = true) (hf : s.first_byte = true) (hc : s.lastch ≠ 1)
    (hlo : 2 ≤ h) (hhi : h ≤ 255) (hh2 : h2 ≤ 1) (hl2 : l2 ≤ 255) :
    (loopStep s h).2 = none ∧ (loopStep s h).1.mode = false ∧
    (loopRun s [h, 1, 1, h2, l2]).2 =
      if 256 * h2 + l2 = s.previous_raw_data then []
      else [((256 * h2 + l2 : Nat) : ℚ) / 10] := by
  obtain ⟨c, m, fb, rd, pv⟩ := s
  simp only at hm hf hc
  subst hm
  subst hf
  have hstep := loopStep_high ⟨c, true, true, rd, pv⟩ h rfl rfl (by omega)
  have hg : 256 * h > 256 := by omega
  rw [if_pos hg] at hstep
  refine ⟨by rw [hstep], by rw [hstep], ?_⟩
  rw [loopRun_cons, hstep]
  rw [loopRun_frame ⟨c, false, false, 256 * h, pv⟩ h2 l2 [] rfl hc hh2 hl2]
  simp [loopRun]

/-- Witness for C3: from the in-frame state ⟨0, true, true, 0, 0⟩, the
bytes [5, 1, 1, 0, 150] drop the misaligned frame and publish only
150 / 10 = 15. -/
theorem c3_invalid_high_byte_resync_witness :
    ((⟨0, true, true, 0, 0⟩ : DecoderState).mode = true ∧
     (⟨0, true, true, 0, 0⟩ : DecoderState).first_byte = true ∧
     (⟨0, true, true, 0, 0⟩ : DecoderState).lastch ≠ 1 ∧
     2 ≤ 5 ∧ (5 : Nat) ≤ 255 ∧ (0 : Nat) ≤ 1 ∧ (150 : Nat) ≤ 255) ∧
    ((loopStep ⟨0, true, true, 0, 0⟩ 5).2 = none ∧
     (loopStep ⟨0, true, true, 0, 0⟩ 5).1.mode = false ∧
     (loopRun ⟨0, true, true, 0, 0⟩ [5, 1, 1, 0, 150]).2 =
       if 256 * 0 + 150 = (⟨0, true, true, 0, 0⟩ : DecoderState).previous_raw_data
       then [] else [((256 * 0 + 150 : Nat) : ℚ) / 10]) :=
  ⟨⟨rfl, rfl, by decide, by omega, by omega, by omega, by omega⟩,
   c3_invalid_high_byte_resync ⟨0, true, true, 0, 0⟩ 5 0 150 rfl rfl
     (by decide) (by omega) (by omega) (by omega) (by omega)⟩

/-- C4: while seeking, a byte b with b = 1 and lastch = 1 moves the
decoder to in-frame mode with lastch reset to 0 and the next byte marked
as high byte (first_byte = true); any other byte stores b in lastch and
stays seeking; in particular [1, 1] from the initial state ends in-frame
awaiting the high byte. -/
theorem c4_seeking_transitions (s : DecoderState) (b : Nat)
    (hm : s.mode = false) :
    (b = 1 ∧ s.lastch = 1 →
      loopStep s b =
        ({ s with lastch := 0, mode := true, first_byte := true }, none)) ∧
    (¬(b = 1 ∧ s.lastch = 1) →
      loopStep s b =
        ({ s with lastch := b, mode := false, first_byte := true }, none)) ∧
    (loopRun initState [1, 1]).1 =
      { initState with lastch := 0, mode := true, first_byte := true } := by
  refine ⟨?_, ?_, by decide⟩
  · rintro ⟨hb, hc⟩
    subst hb
    exact loopStep_seek_hit s hm hc
  · intro hne
    exact loopStep_seek_miss s b hm hne

/-- Witness for C4 at the initial state and byte 1. -/
theorem c4_seeking_transitions_witness :
    initState.mode = false ∧
    ((1 = 1 ∧ initState.lastch = 1 →
       loopStep initState 1 =
         ({ initState with lastch := 0, mode := true, first_byte := true },
          none)) ∧
     (¬(1 = 1 ∧ initState.lastch = 1) →
       loopStep initState 1 =
         ({ initState with lastch := 1, mode := false, first_byte := true },
          none)) ∧
     (loopRun initState [1, 1]).1 =
       { initState with lastch := 0, mode := true, first_byte := true }) :=
  ⟨rfl, c4_seeking_transitions initState 1 rfl⟩

/-- C5: from the initial state, the byte sequence
[9, 1, 1, 0, 150, 1, 1, 0, 150, 1, 1, 0, 151] produces exactly two
publish calls, 15.0 then 15.1, in that order. -/
theorem c5_full_round_trip :
    (loopRun initState [9, 1, 1, 0, 150, 1, 1, 0, 150, 1, 1, 0, 151]).2 =
      [15, 15.1] := by
  have h9 : loopStep initState 9 = (⟨9, false, true, 0, 0⟩, none) := by
    rw [loopStep_seek_miss initState 9 rfl (by decide)]
    rfl
  have henc : (9 : Nat) :: encodeFrames [(0, 150), (0, 150), (0, 151)] =
      [9, 1, 1, 0, 150, 1, 1, 0, 150, 1, 1, 0, 151] := rfl
  rw [← henc, loopRun_cons, h9]
  rw [loopRun_encodeFrames [(0, 150), (0, 150), (0, 151)] 9 0 0 true
    (by omega) (by decide)]
  norm_num [specEmits, frameVal]

/-- C6: a high byte ≤ 1 (in particular exactly 1, giving
`raw_data = 256`) is not treated as a framing error: the decoder stays
in-frame with `raw_data = 256 * h`, publishes nothing on that byte, and
the following low byte completes assembly and publishes
`(256 * h + l) / 10` whenever that differs from the last emitted
value. -/
theorem c6_high_byte_le_one_accepted (s : DecoderState) (h l : Nat)
    (hm : s.mode = true) (hf : s.first_byte = true) (hh : h ≤ 1)
    (hl : l ≤ 255) :
    (loopStep s h).1.mode = true ∧
    (loopStep s h).1.first_byte = false ∧
    (loopStep s h).1.raw_data = 256 * h ∧
    (loopStep s h).2 = none ∧
    (s.previous_raw_data ≠ 256 * h + l →
      (loopStep (loopStep s h).1 l).2 =
        some (((256 * h + l : Nat) : ℚ) / 10)) := by
  obtain ⟨c, m, fb, rd, pv⟩ := s
  simp only at hm hf
  subst hm
  subst hf
  have hstep := loopStep_high ⟨c, true, true, rd, pv⟩ h rfl rfl (by omega)
  have hng : ¬(256 * h > 256) := by omega
  rw [if_neg hng] at hstep
  rw [hstep]
  refine ⟨rfl, rfl, rfl, rfl, ?_⟩
  intro hpv
  have hlow := loopStep_low ⟨c, true, false, 256 * h, pv⟩ l rfl rfl
    (by show 256 * h + l < ushortMod; unfold ushortMod; omega)
  rw [if_neg hpv] at hlow
  rw [show ({ (⟨c, true, true, rd, pv⟩ : DecoderState) with
        raw_data := 256 * h
        first_byte := false
        mode := true } : DecoderState) =
      ⟨c, true, false, 256 * h, pv⟩ from rfl, hlow]

/-- Witness for C6 at the in-frame state ⟨0, true, true, 0, 0⟩ with high
byte 1 and low byte 0: rawValue 256 is accepted and 256 / 10 is
published. -/
theorem c6_high_byte_le_one_accepted_witness :
    ((⟨0, true, true, 0, 0⟩ : DecoderState).mode = true ∧
     (⟨0, true, true, 0, 0⟩ : DecoderState).first_byte = true ∧
     (1 : Nat) ≤ 1 ∧ (0 : Nat) ≤ 255) ∧
    ((loopStep ⟨0, true, true, 0, 0⟩ 1).1.mode = true ∧
     (loopStep ⟨0, true, true, 0, 0⟩ 1).1.first_byte = false ∧
     (loopStep ⟨0, true, true, 0, 0⟩ 1).1.raw_data = 256 * 1 ∧
     (loopStep ⟨0, true, true, 0, 0⟩ 1).2 = none ∧
     ((⟨0, true, true, 0, 0⟩ : DecoderState).previous_raw_data ≠
        256 * 1 + 0 →
       (loopStep (loopStep ⟨0, true, true, 0, 0⟩ 1).1 0).2 =
         some (((256 * 1 + 0 : Nat) : ℚ) / 10))) :=
  ⟨⟨rfl, rfl, by omega, by omega⟩,
   c6_high_byte_le_one_accepted ⟨0, true, true, 0, 0⟩ 1 0 rfl rfl (by omega)
     (by omega)⟩

/-- C7: after the low byte of a frame that passed the high-byte check,
the decoder is back in seeking mode and the last emitted value equals
the just-assembled raw value, whether or not a publish was made. -/
theorem c7_low_byte_returns_seeking (s : DecoderState) (b : Nat)
    (hm : s.mode = true) (hf : s.first_byte = false) :
    (loopStep s b).1.mode = false ∧
    (loopStep s b).1.previous_raw_data = (loopStep s b).1.raw_data := by
  obtain ⟨c, m, fb, rd, pv⟩ := s
  simp only at hm hf
  subst hm
  subst hf
  by_cases hpv : pv ≠ (rd + b) % ushortMod
  · simp [loopStep, hpv]
  · simp only [not_not] at hpv
    simp [loopStep, hpv]

/-- Witness for C7 at the state ⟨0, true, false, 0, 0⟩ and low byte 5. -/
theorem c7_low_byte_returns_seeking_witness :
    ((⟨0, true, false, 0, 0⟩ : DecoderState).mode = true ∧
     (⟨0, true, false, 0, 0⟩ : DecoderState).first_byte = false) ∧
    ((loopStep ⟨0, true, false, 0, 0⟩ 5).1.mode = false ∧
     (loopStep ⟨0, true, false, 0, 0⟩ 5).1.previous_raw_data =
       (loopStep ⟨0, true, false, 0, 0⟩ 5).1.raw_data) :=
  ⟨⟨rfl, rfl⟩, c7_low_byte_returns_seeking ⟨0, true, false, 0, 0⟩ 5 rfl rfl⟩

/-- C8: when no byte is available, an invocation of the decoder's poll
changes no state and publishes nothing, from every decoder state. -/
theorem c8_no_data_no_change (s : DecoderState) : loopRun s [] = (s, []) :=
  rfl

/-- C9: `previous_raw_data` starts at 0, so a first genuine frame whose
assembled raw value is 0 is never published: from the initial state,
[1, 1, 0, 0] produces no publish call. -/
theorem c9_initial_zero_frame_suppressed :
    (loopRun initState [1, 1, 0, 0]).2 = [] := by
  rw [loopRun_frame initState 0 0 [] rfl (by decide) (by omega) (by omega)]
  simp [loopRun, initState]

/-- C10: every published value is r / 10 for some integer r ≤ 511 (high
byte at most 1, low byte at most 255), hence never exceeds 51.1, for
every stream of bytes fed from the initial state. -/
theorem c10_published_values_bounded (bs : List Nat)
    (hbs : ∀ b ∈ bs, b ≤ 255) :
    ∀ q ∈ (loopRun initState bs).2,
      (∃ r : Nat, r ≤ 511 ∧ q = (r : ℚ) / 10) ∧ q ≤ 511 / 10 := by
  intro q hq
  have hinv : RawInv initState := by
    intro hm hf
    simp [initState] at hm
  obtain ⟨r, hr, hqr⟩ := loopRun_publish_bound bs initState hinv hbs q hq
  refine ⟨⟨r, hr, hqr⟩, ?_⟩
  have hrq : (r : ℚ) ≤ 511 := by exact_mod_cast hr
  rw [hqr]
  linarith

/-- Witness for C10 at the byte stream [1, 1, 0, 200]. -/
theorem c10_published_values_bounded_witness :
    (∀ b ∈ [(1 : Nat), 1, 0, 200], b ≤ 255) ∧
    (∀ q ∈ (loopRun initState [1, 1, 0, 200]).2,
      (∃ r : Nat, r ≤ 511 ∧ q = (r : ℚ) / 10) ∧ q ≤ 511 / 10) :=
  ⟨by decide, c10_published_values_bounded [1, 1, 0, 200] (by decide)⟩

end UartUplift
